import Mathlib

/-!
# Verification of the azul text layout engine (`src/text_layout.rs`)

Shallow embedding of the text layout pipeline: segmenter, overflow
estimation passes, left-aligned placer, horizontal/vertical aligners and
origin translation.  `f32` values are modelled as exact rationals (`ℚ`);
`usize` values as `Nat`.  The external font (rusttype `Font`) is modelled
as a record of metric lookup functions.  Rust operations that panic in the
source (unsigned underflow on `len() - 1`, failed `assert!`, out-of-bounds
indexing) are modelled by `Option`-valued functions returning `none`.
Input text is modelled as the character sequence after NFC normalization
(the source applies `text.nfc()` before segmenting).
-/

set_option linter.unusedVariables false

namespace AzulText

/-- `webrender::api::GlyphInstance`: a glyph id plus a 2D position. -/
structure GlyphInstance where
  index : Nat
  x : ℚ
  y : ℚ
  deriving Repr, DecidableEq

/-- `Word` from `text_layout.rs`: original text, glyphs positioned relative
to the first character of the word, and the sum of the character widths. -/
structure Word where
  text : List Char
  glyphs : List GlyphInstance
  total_width : ℚ
  deriving Repr, DecidableEq

/-- `SemanticWordItem`: word, tab, or return token. -/
inductive SemanticWordItem where
  | word : Word → SemanticWordItem
  | tab : SemanticWordItem
  | ret : SemanticWordItem
  deriving Repr, DecidableEq

/-- `SemanticWordItem::is_return`. -/
def SemanticWordItem.isReturn : SemanticWordItem → Bool
  | .ret => true
  | _ => false

/-- `TextOverflow`: overflowing by a number of pixels, or in bounds with
some remaining space. -/
inductive TextOverflow where
  | isOverflowing : ℚ → TextOverflow
  | inBounds : ℚ → TextOverflow
  deriving Repr, DecidableEq

/-- `TextOverflow::is_overflowing`. -/
def TextOverflow.isOverflowingB : TextOverflow → Bool
  | .isOverflowing _ => true
  | .inBounds _ => false

/-- `TextOverflowPass1`. -/
structure TextOverflowPass1 where
  horizontal : TextOverflow
  vertical : TextOverflow
  deriving Repr, DecidableEq

/-- `TextOverflowPass2`. -/
structure TextOverflowPass2 where
  horizontal : TextOverflow
  vertical : TextOverflow
  deriving Repr, DecidableEq

/-- rusttype `VMetrics` at some scale. -/
structure FontVMetrics where
  ascent : ℚ
  descent : ℚ
  line_gap : ℚ
  deriving Repr, DecidableEq

/-- The external font, modelled as a record of the metric lookups the
layout code performs: glyph id per character, horizontal advance width per
character and scale, pairwise kerning per scale and glyph-id pair, and
vertical metrics per scale. -/
structure FontImpl where
  glyphId : Char → Nat
  advanceWidth : Char → ℚ → ℚ
  pairKerning : ℚ → Nat → Nat → ℚ
  vMetrics : ℚ → FontVMetrics

/-- `FontMetrics` from `text_layout.rs`. -/
structure FontMetrics where
  space_width : ℚ
  tab_width : ℚ
  vertical_advance : ℚ
  offset_top : ℚ
  deriving Repr, DecidableEq

/-- `ScrollbarInfo`: only `width` (the thickness) and `padding` take part
in layout arithmetic; the styles are opaque to the core. -/
structure ScrollbarInfo where
  width : Nat
  padding : Nat
  deriving Repr, DecidableEq

/-- Modelled from the spec: `css_parser::LayoutOverflow` is repository code
outside `src/`; the layout core only consumes it through the predicate
"allows horizontal overflow" (per-axis overflow policy). -/
structure LayoutOverflow where
  allows_horizontal : Bool
  deriving Repr, DecidableEq

/-- `LayoutOverflow::allows_horizontal_overflow`, modelled from the spec. -/
def LayoutOverflow.allowsHorizontalOverflow (o : LayoutOverflow) : Bool :=
  o.allows_horizontal

/-- `TypedSize2D<f32, LayoutPixel>`. -/
structure RectSize where
  width : ℚ
  height : ℚ
  deriving Repr, DecidableEq

/-- `TypedRect<f32, LayoutPixel>`: origin plus size. -/
structure Rect where
  originX : ℚ
  originY : ℚ
  size : RectSize
  deriving Repr, DecidableEq

/-- `css_parser::TextAlignmentHorz`. -/
inductive TextAlignmentHorz where
  | left | center | right
  deriving Repr, DecidableEq

/-- `css_parser::TextAlignmentVert`. -/
inductive TextAlignmentVert where
  | top | center | bottom
  deriving Repr, DecidableEq

/-! ## Segmenter (`split_text_into_words`) -/

/-- The mutable locals of `split_text_into_words`, bundled as a state. -/
structure SegState where
  words : List SemanticWordItem
  word_caret : ℚ
  cur_word_length : ℚ
  chars_in_this_word : List Char
  glyphs_in_this_word : List GlyphInstance
  last_glyph : Option Nat
  deriving Repr, DecidableEq

/-- `end_word`: push the accumulated word and reset the accumulator. -/
def endWord (s : SegState) : SegState :=
  { words := s.words ++ [.word { text := s.chars_in_this_word,
                                 glyphs := s.glyphs_in_this_word,
                                 total_width := s.cur_word_length }],
    word_caret := 0,
    cur_word_length := 0,
    chars_in_this_word := [],
    glyphs_in_this_word := [],
    last_glyph := none }

/-- The `if !chars_in_this_word.is_empty() { end_word(...) }` guard. -/
def flushWord (s : SegState) : SegState :=
  if s.chars_in_this_word.isEmpty then s else endWord s

/-- One iteration of the character loop of `split_text_into_words`. -/
def segStep (font : FontImpl) (font_size : ℚ) (s : SegState) (c : Char) : SegState :=
  if c = '\t' then
    let s := flushWord s
    { s with words := s.words ++ [.tab] }
  else if c = '\n' then
    let s := flushWord s
    { s with words := s.words ++ [.ret] }
  else if c = ' ' then
    flushWord s
  else
    let id := font.glyphId c
    let caret1 :=
      match s.last_glyph with
      | some last => s.word_caret + font.pairKerning font_size last id
      | none => s.word_caret
    let adv := font.advanceWidth c font_size
    { s with
      word_caret := caret1 + adv,
      cur_word_length := s.cur_word_length + adv,
      glyphs_in_this_word := s.glyphs_in_this_word ++ [{ index := id, x := caret1, y := 0 }],
      chars_in_this_word := s.chars_in_this_word ++ [c],
      last_glyph := some id }

/-- `split_text_into_words`: fold the character loop, then flush a trailing
non-empty word. -/
def split_text_into_words (text : List Char) (font : FontImpl) (font_size : ℚ) :
    List SemanticWordItem :=
  (flushWord (text.foldl (segStep font font_size) ⟨[], 0, 0, [], [], none⟩)).words

/-! ## Overflow estimation, pass 1 (`estimate_overflow_pass_1`) -/

/-- State of the wrapping simulation in the branch of
`estimate_overflow_pass_1` taken when horizontal overflow is not allowed:
`(max_line_cursor, cur_line_cursor, cur_vertical)`. -/
structure Pass1SimState where
  max_line_cursor : ℚ
  cur_line_cursor : ℚ
  cur_vertical : ℚ
  deriving Repr, DecidableEq

/-- One token of the wrapping simulation (vertical branch when horizontal
overflow is not allowed). -/
def pass1SimStep (rect_width vertical_advance tab_width : ℚ)
    (st : Pass1SimState) : SemanticWordItem → Pass1SimState
  | .word w =>
    if st.cur_line_cursor + w.total_width > rect_width then
      { max_line_cursor := max st.max_line_cursor st.cur_line_cursor,
        cur_line_cursor := 0,
        cur_vertical := st.cur_vertical + vertical_advance }
    else
      { st with cur_line_cursor := st.cur_line_cursor + w.total_width }
  | .tab => { st with cur_line_cursor := st.cur_line_cursor + tab_width }
  | .ret =>
    { max_line_cursor := max st.max_line_cursor st.cur_line_cursor,
      cur_line_cursor := 0,
      cur_vertical := st.cur_vertical + vertical_advance }

/-- One token of the horizontal maximum-line-width loop taken when
horizontal overflow is allowed: state is `(cur_line_cursor, max_line_cursor)`. -/
def pass1HorzStep (tab_width : ℚ) (st : ℚ × ℚ) : SemanticWordItem → ℚ × ℚ
  | .word w => (st.1 + w.total_width, st.2)
  | .tab => (st.1 + tab_width, st.2)
  | .ret => (0, max st.2 st.1)

/-- Compare a consumed extent against a bound, as at the end of each axis
of `estimate_overflow_pass_1`. -/
def boundCheck (consumed bound : ℚ) : TextOverflow :=
  if consumed > bound then .isOverflowing (consumed - bound)
  else .inBounds (bound - consumed)

/-- `estimate_overflow_pass_1`.  When horizontal overflow is allowed the
vertical extent is the `Return` count times the vertical advance and the
horizontal extent is the maximum line width between explicit returns.
Otherwise both extents come from the wrapping simulation: the vertical
extent is its final vertical cursor, and the horizontal extent is the value
the source stores in `max_hor_len`, namely the final `cur_line_cursor`. -/
def estimate_overflow_pass_1 (words : List SemanticWordItem)
    (rect_dimensions : RectSize) (font_metrics : FontMetrics)
    (overflow : LayoutOverflow) : TextOverflowPass1 :=
  if overflow.allowsHorizontalOverflow then
    let vertical_length :=
      ((words.filter (·.isReturn)).length : ℚ) * font_metrics.vertical_advance
    let horz_max :=
      (words.foldl (pass1HorzStep font_metrics.tab_width) (0, 0)).2
    { horizontal := boundCheck horz_max rect_dimensions.width,
      vertical := boundCheck vertical_length rect_dimensions.height }
  else
    let st := words.foldl
      (pass1SimStep rect_dimensions.width font_metrics.vertical_advance font_metrics.tab_width)
      ⟨0, 0, font_metrics.offset_top⟩
    { horizontal := boundCheck st.cur_line_cursor rect_dimensions.width,
      vertical := boundCheck st.cur_vertical rect_dimensions.height }

/-! ## Overflow estimation, pass 2 (`estimate_overflow_pass_2`) -/

/-- `estimate_overflow_pass_2`: shrink the height by the scrollbar width if
pass 1 overflowed horizontally, shrink the width if pass 1 overflowed
vertically, then run pass 1 once more on the shrunken rectangle. -/
def estimate_overflow_pass_2 (words : List SemanticWordItem)
    (rect_dimensions : RectSize) (font_metrics : FontMetrics)
    (overflow : LayoutOverflow) (scrollbar_info : ScrollbarInfo)
    (pass1 : TextOverflowPass1) : RectSize × TextOverflowPass2 :=
  let new_height :=
    if pass1.horizontal.isOverflowingB then
      rect_dimensions.height - (scrollbar_info.width : ℚ)
    else rect_dimensions.height
  let new_width :=
    if pass1.vertical.isOverflowingB then
      rect_dimensions.width - (scrollbar_info.width : ℚ)
    else rect_dimensions.width
  let new_size : RectSize := ⟨new_width, new_height⟩
  let recalc := estimate_overflow_pass_1 words new_size font_metrics overflow
  (new_size, { horizontal := recalc.horizontal, vertical := recalc.vertical })

/-! ## Shaping / justification adjustment stages (currently stubs) -/

/-- `calculate_harfbuzz_adjustments`: returns an empty vector (TODO stub). -/
def calculate_harfbuzz_adjustments (text : List Char) (font : FontImpl) : List ℚ :=
  []

/-- `apply_harfbuzz_adjustments`: does nothing (TODO stub). -/
def apply_harfbuzz_adjustments (positioned_glyphs : List GlyphInstance)
    (harfbuzz_adjustments : List ℚ) : List GlyphInstance :=
  positioned_glyphs

/-- `calculate_knuth_plass_adjustments`: returns an empty vector (TODO stub). -/
def calculate_knuth_plass_adjustments (positioned_glyphs : List GlyphInstance)
    (line_break_offsets : List (Nat × ℚ)) : List ℚ :=
  []

/-- `apply_knuth_plass_adjustments`: does nothing (TODO stub). -/
def apply_knuth_plass_adjustments (positioned_glyphs : List GlyphInstance)
    (knuth_plass_adjustments : List ℚ) : List GlyphInstance :=
  positioned_glyphs

/-! ## Line breaker / left-aligned placer (`words_to_left_aligned_glyphs`)

The source evaluates `left_aligned_glyphs.len() - 1` when recording a line
break; on an empty glyph vector this is an unsigned underflow (a panic in
debug builds, a poisoned index in release builds), modelled as `none`. -/

/-- The inner `WordCaretMax` enum: the provisional slack recorded per line. -/
inductive WordCaretMax where
  | someMaxWidth : ℚ → WordCaretMax
  | noMaxWidth : ℚ → WordCaretMax
  deriving Repr, DecidableEq

/-- The `space_until_horz_return` computation, common to the overflow
break, the `Return` break and the final flush. -/
def spaceUntilHorzReturn (max_horizontal_width : Option ℚ) (word_caret : ℚ) :
    WordCaretMax :=
  match max_horizontal_width with
  | some s => .someMaxWidth (s - word_caret)
  | none => .noMaxWidth word_caret

/-- The mutable locals of `words_to_left_aligned_glyphs`. -/
structure PlacerState where
  left_aligned_glyphs : List GlyphInstance
  line_break_offsets : List (Nat × WordCaretMax)
  word_caret : ℚ
  current_line_num : Nat
  max_word_caret : ℚ
  deriving Repr, DecidableEq

/-- The break/record/reset sequence shared by the width-overflow case and
the `Return` case: record the previous glyph's index and the provisional
slack, update the maximum caret, reset the caret, increment the line.
`none` models the `len() - 1` underflow on an empty glyph vector. -/
def recordLineBreak (max_horizontal_width : Option ℚ) (s : PlacerState) :
    Option PlacerState :=
  if s.left_aligned_glyphs.isEmpty then none
  else
    some { s with
      line_break_offsets := s.line_break_offsets ++
        [(s.left_aligned_glyphs.length - 1,
          spaceUntilHorzReturn max_horizontal_width s.word_caret)],
      max_word_caret :=
        if s.word_caret > s.max_word_caret then s.word_caret else s.max_word_caret,
      word_caret := 0,
      current_line_num := s.current_line_num + 1 }

/-- One iteration of the token loop of `words_to_left_aligned_glyphs`. -/
def placerStep (max_horizontal_width : Option ℚ)
    (space_width tab_width v_advance_scaled offset_top : ℚ)
    (s : PlacerState) : SemanticWordItem → Option PlacerState
  | .word w =>
    let text_overflows_rect : Bool :=
      match max_horizontal_width with
      | some m => decide (s.word_caret + w.total_width > m)
      | none => false
    (if text_overflows_rect then recordLineBreak max_horizontal_width s
     else some s).bind fun s1 =>
      let placed := w.glyphs.map fun g =>
        { g with
          x := g.x + s1.word_caret,
          y := g.y + ((s1.current_line_num : ℚ) * v_advance_scaled + offset_top) }
      some { s1 with
        left_aligned_glyphs := s1.left_aligned_glyphs ++ placed,
        word_caret := s1.word_caret + w.total_width + space_width }
  | .tab => some { s with word_caret := s.word_caret + tab_width }
  | .ret => recordLineBreak max_horizontal_width s

/-- The token loop of `words_to_left_aligned_glyphs`. -/
def placerRun (max_horizontal_width : Option ℚ)
    (space_width tab_width v_advance_scaled offset_top : ℚ) :
    PlacerState → List SemanticWordItem → Option PlacerState
  | s, [] => some s
  | s, item :: rest =>
    (placerStep max_horizontal_width space_width tab_width v_advance_scaled
      offset_top s item).bind fun s' =>
      placerRun max_horizontal_width space_width tab_width v_advance_scaled
        offset_top s' rest

/-- Resolve a provisional per-line slack against the final maximum caret,
as in the closing `map` of `words_to_left_aligned_glyphs`. -/
def resolveSlack (max_word_caret : ℚ) : WordCaretMax → ℚ
  | .someMaxWidth s => s
  | .noMaxWidth word_caret => max_word_caret - word_caret

/-- The `v_advance_scaled` computation of `words_to_left_aligned_glyphs`:
`ascent - descent + line_gap` of the font's vertical metrics taken at scale
`vertical_advance`. -/
def scaledVerticalAdvance (font : FontImpl) (font_metrics : FontMetrics) : ℚ :=
  let vm := font.vMetrics font_metrics.vertical_advance
  vm.ascent - vm.descent + vm.line_gap

/-- The "push the infos about the last line" block at the end of
`words_to_left_aligned_glyphs`: if any glyph was placed, record the last
line's entry and fold the final caret into the maximum. -/
def placerFlushLastLine (max_horizontal_width : Option ℚ) (s : PlacerState) :
    PlacerState :=
  if s.left_aligned_glyphs.isEmpty then s
  else
    { s with
      line_break_offsets := s.line_break_offsets ++
        [(s.left_aligned_glyphs.length - 1,
          spaceUntilHorzReturn max_horizontal_width s.word_caret)],
      max_word_caret :=
        if s.word_caret > s.max_word_caret then s.word_caret
        else s.max_word_caret }

/-- `words_to_left_aligned_glyphs`: run the token loop from the empty
state, flush the info about the last line if any glyph was placed, then
resolve the provisional slacks. -/
def words_to_left_aligned_glyphs (words : List SemanticWordItem)
    (font : FontImpl) (max_horizontal_width : Option ℚ)
    (font_metrics : FontMetrics) :
    Option (List GlyphInstance × List (Nat × ℚ)) :=
  (placerRun max_horizontal_width font_metrics.space_width
      font_metrics.tab_width (scaledVerticalAdvance font font_metrics)
      font_metrics.offset_top ⟨[], [], 0, 0, 0⟩ words).bind fun s =>
    let s := placerFlushLastLine max_horizontal_width s
    some (s.left_aligned_glyphs,
      s.line_break_offsets.map fun p => (p.1, resolveSlack s.max_word_caret p.2))

/-! ## Horizontal aligner (`align_text_horz`) -/

/-- The glyph loop of `align_text_horz`: `current_line_num` advances past a
line-break entry once the glyph index exceeds that entry's glyph index;
each glyph's x gains that line's slack times the factor.  Out-of-bounds
indexing into the line-break table (a panic in the source) is `none`. -/
def alignLoop (line_breaks : List (Nat × ℚ)) (multiply_factor : ℚ) :
    List GlyphInstance → Nat → Nat → Option (List GlyphInstance)
  | [], _, _ => some []
  | g :: gs, glyph_idx, cur_line =>
    match line_breaks[cur_line]? with
    | none => none
    | some entry =>
      let cur_line' := if entry.1 < glyph_idx then cur_line + 1 else cur_line
      match line_breaks[cur_line']? with
      | none => none
      | some entry2 =>
        (alignLoop line_breaks multiply_factor gs (glyph_idx + 1) cur_line').map
          fun rest => { g with x := g.x + entry2.2 * multiply_factor } :: rest

/-- `align_text_horz`: empty line-break table returns the glyphs unchanged;
otherwise the assert that the last entry indexes the final glyph must hold
(`none` models the assert failure, including the `glyphs.len() - 1`
underflow on an empty glyph slice); left alignment is the identity; center
and right shift each glyph by its line's slack times 0.5 resp. 1.0. -/
def align_text_horz (alignment : TextAlignmentHorz)
    (glyphs : List GlyphInstance) (line_breaks : List (Nat × ℚ))
    (overflow : TextOverflowPass2) : Option (List GlyphInstance) :=
  match line_breaks.getLast? with
  | none => some glyphs
  | some last_entry =>
    if glyphs.length = 0 then none
    else if glyphs.length - 1 ≠ last_entry.1 then none
    else
      match alignment with
      | .left => some glyphs
      | .right => alignLoop line_breaks 1 glyphs 0 0
      | .center => alignLoop line_breaks (1/2) glyphs 0 0

/-! ## Vertical aligner and origin translation -/

/-- `align_text_vert`: the source's function body is empty, so this is the
identity on the glyphs. -/
def align_text_vert (alignment : TextAlignmentVert)
    (glyphs : List GlyphInstance) (line_breaks : List (Nat × ℚ))
    (overflow : TextOverflowPass2) : List GlyphInstance :=
  glyphs

/-- `add_origin`: add the X and Y offset to each positioned glyph. -/
def add_origin (positioned_glyphs : List GlyphInstance) (x y : ℚ) :
    List GlyphInstance :=
  positioned_glyphs.map fun c => { c with x := c.x + x, y := c.y + y }

/-! ## Entry point (`get_glyphs`) -/

/-- `get_glyphs`: the full pipeline.  `none` models a panic in one of the
stages (the placer's underflow or the aligner's assert). -/
def get_glyphs (bounds : Rect) (horiz_alignment : TextAlignmentHorz)
    (vert_alignment : TextAlignmentVert) (font : FontImpl) (font_size : ℚ)
    (line_height : Option ℚ) (text : List Char) (overflow : LayoutOverflow)
    (scrollbar_info : ScrollbarInfo) :
    Option (List GlyphInstance × TextOverflowPass2) :=
  let lh := match line_height with | some v => v | none => 1
  let font_size_with_line_height := font_size * lh
  let space_width := font.advanceWidth ' ' font_size
  let tab_width := 4 * space_width
  let offset_top := (font.vMetrics font_size_with_line_height).ascent
  let font_metrics : FontMetrics :=
    { vertical_advance := font_size_with_line_height,
      space_width := space_width,
      tab_width := tab_width,
      offset_top := offset_top }
  let words := split_text_into_words text font font_size
  let harfbuzz_adjustments := calculate_harfbuzz_adjustments text font
  let overflow_pass_1 :=
    estimate_overflow_pass_1 words bounds.size font_metrics overflow
  let r2 := estimate_overflow_pass_2 words bounds.size font_metrics overflow
    scrollbar_info overflow_pass_1
  let new_size := r2.1
  let overflow_pass_2 := r2.2
  let max_horizontal_text_width :=
    if overflow.allowsHorizontalOverflow then none else some new_size.width
  (words_to_left_aligned_glyphs words font max_horizontal_text_width
      font_metrics).bind fun r =>
    let positioned_glyphs := apply_harfbuzz_adjustments r.1 harfbuzz_adjustments
    let knuth_plass_adjustments :=
      calculate_knuth_plass_adjustments positioned_glyphs r.2
    let positioned_glyphs :=
      apply_knuth_plass_adjustments positioned_glyphs knuth_plass_adjustments
    (align_text_horz horiz_alignment positioned_glyphs r.2
        overflow_pass_2).bind fun aligned =>
      let aligned := align_text_vert vert_alignment aligned r.2 overflow_pass_2
      some (add_origin aligned bounds.originX bounds.originY, overflow_pass_2)

/-- `RUSTTYPE_SIZE_HACK`. -/
def RUSTTYPE_SIZE_HACK : ℚ := 72 / 41

/-- `PX_TO_PT`. -/
def PX_TO_PT : ℚ := 72 / 96

/-- `put_text_in_bounds`: calls `get_glyphs` with the unit-conversion
factor applied to the font size. -/
def put_text_in_bounds (text : List Char) (font : FontImpl) (font_size : ℚ)
    (line_height : Option ℚ) (horz_align : TextAlignmentHorz)
    (vert_align : TextAlignmentVert) (overflow : LayoutOverflow)
    (scrollbar_info : ScrollbarInfo) (bounds : Rect) :
    Option (List GlyphInstance × TextOverflowPass2) :=
  get_glyphs bounds horz_align vert_align font
    (font_size * RUSTTYPE_SIZE_HACK * PX_TO_PT) line_height text overflow
    scrollbar_info

/-! ## Concrete fonts used for evaluations -/

/-- A font with constant advance width 10 and constant pairwise kerning 5;
vertical metrics have ascent equal to the scale. -/
def kernFont : FontImpl where
  glyphId c := c.toNat
  advanceWidth _ _ := 10
  pairKerning _ _ _ := 5
  vMetrics s := ⟨s, 0, 0⟩

/-- A kerning-free font with constant advance width 3; vertical metrics
have ascent equal to the scale. -/
def plainFont : FontImpl where
  glyphId c := c.toNat
  advanceWidth _ _ := 3
  pairKerning _ _ _ := 0
  vMetrics s := ⟨s, 0, 0⟩

/-- A kerning-free font whose ascent at scale `s` is `s + 1`, so that the
scaled vertical advance used by the placer differs from the
`vertical_advance` font metric. -/
def bumpFont : FontImpl where
  glyphId _ := 1
  advanceWidth _ _ := 3
  pairKerning _ _ _ := 0
  vMetrics s := ⟨s + 1, 0, 0⟩

/-! ## C1: the segmenter's `total_width` -/

/-- The sum of the advance widths of a list of characters. -/
def sumAdvance (font : FontImpl) (font_size : ℚ) (chars : List Char) : ℚ :=
  (chars.map fun c => font.advanceWidth c font_size).sum

/-- The segmenter invariant: every emitted word's `total_width` is the sum
of its characters' advance widths, and the running `cur_word_length` is the
sum for the characters accumulated so far. -/
def SegInv (font : FontImpl) (font_size : ℚ) (s : SegState) : Prop :=
  (∀ w, SemanticWordItem.word w ∈ s.words →
    w.total_width = sumAdvance font font_size w.text) ∧
  s.cur_word_length = sumAdvance font font_size s.chars_in_this_word

lemma segInv_flushWord (font : FontImpl) (font_size : ℚ) (s : SegState)
    (h : SegInv font font_size s) : SegInv font font_size (flushWord s) := by
  obtain ⟨hw, hc⟩ := h
  unfold flushWord endWord
  split
  · exact ⟨hw, hc⟩
  · refine ⟨?_, by simp [sumAdvance]⟩
    intro w hmem
    simp only [List.mem_append, List.mem_singleton] at hmem
    rcases hmem with hmem | hmem
    · exact hw w hmem
    · cases hmem
      simpa using hc

lemma segInv_segStep (font : FontImpl) (font_size : ℚ) (s : SegState)
    (c : Char) (h : SegInv font font_size s) :
    SegInv font font_size (segStep font font_size s c) := by
  obtain ⟨hw, hc⟩ := h
  unfold segStep
  split
  · obtain ⟨hw', hc'⟩ := segInv_flushWord font font_size s ⟨hw, hc⟩
    refine ⟨?_, hc'⟩
    intro w hmem
    simp only [List.mem_append, List.mem_singleton] at hmem
    rcases hmem with hmem | hmem
    · exact hw' w hmem
    · cases hmem
  · split
    · obtain ⟨hw', hc'⟩ := segInv_flushWord font font_size s ⟨hw, hc⟩
      refine ⟨?_, hc'⟩
      intro w hmem
      simp only [List.mem_append, List.mem_singleton] at hmem
      rcases hmem with hmem | hmem
      · exact hw' w hmem
      · cases hmem
    · split
      · exact segInv_flushWord font font_size s ⟨hw, hc⟩
      · refine ⟨hw, ?_⟩
        simp [sumAdvance, hc]

lemma segInv_foldl (font : FontImpl) (font_size : ℚ) (text : List Char)
    (s : SegState) (h : SegInv font font_size s) :
    SegInv font font_size (text.foldl (segStep font font_size) s) := by
  induction text generalizing s with
  | nil => exact h
  | cons c rest ih =>
    exact ih _ (segInv_segStep font font_size s c h)

/-- C1 (amended): every `Word` token produced by the segmenter has
`total_width` equal to the sum of its characters' advance widths alone;
the intra-word kerning deltas shift the glyph offsets but are not added to
`total_width`. -/
theorem C1_total_width_is_sum_of_advances (text : List Char)
    (font : FontImpl) (font_size : ℚ) (w : Word)
    (hmem : SemanticWordItem.word w ∈ split_text_into_words text font font_size) :
    w.total_width = sumAdvance font font_size w.text := by
  have h := segInv_flushWord font font_size _
    (segInv_foldl font font_size text ⟨[], 0, 0, [], [], none⟩
      (by constructor <;> simp [sumAdvance]))
  exact h.1 w hmem

theorem C1_total_width_is_sum_of_advances_witness :
    (SemanticWordItem.word
        { text := ['a', 'b'], glyphs := [⟨97, 0, 0⟩, ⟨98, 15, 0⟩],
          total_width := 20 } ∈
      split_text_into_words ['a', 'b'] kernFont 1) ∧
    (20 : ℚ) = sumAdvance kernFont 1 ['a', 'b'] :=
  ⟨by simp [split_text_into_words, segStep, flushWord, endWord, kernFont]; norm_num,
   C1_total_width_is_sum_of_advances ['a', 'b'] kernFont 1
     { text := ['a', 'b'], glyphs := [⟨97, 0, 0⟩, ⟨98, 15, 0⟩],
       total_width := 20 }
     (by simp [split_text_into_words, segStep, flushWord, endWord, kernFont]; norm_num)⟩

/-- C1 (counterexample to the claim as stated): for the two-character word
"ab" under `kernFont` (advance 10, kerning 5) the emitted `total_width` is
20, while the sum of the advance widths plus the intra-word kerning delta
is 25. -/
theorem C1_counterexample :
    split_text_into_words ['a', 'b'] kernFont 1 =
      [SemanticWordItem.word
        { text := ['a', 'b'], glyphs := [⟨97, 0, 0⟩, ⟨98, 15, 0⟩],
          total_width := 20 }] ∧
    kernFont.advanceWidth 'a' 1 + kernFont.advanceWidth 'b' 1 +
      kernFont.pairKerning 1 (kernFont.glyphId 'a') (kernFont.glyphId 'b') = 25 ∧
    (20 : ℚ) ≠ 25 := by
  refine ⟨?_, by norm_num [kernFont], by norm_num⟩
  simp [split_text_into_words, segStep, flushWord, endWord, kernFont]
  norm_num

/-! ## C8: origin translation -/

/-- C8: `add_origin` adds the origin to every glyph exactly once;
re-translating by `(0,0)` is a no-op, while translating twice by the same
non-zero origin differs from translating once (witnessed on any non-empty
glyph list). -/
theorem C8_add_origin_translation (g : List GlyphInstance) (x y : ℚ) :
    add_origin (add_origin g x y) 0 0 = add_origin g x y ∧
    (∀ g0 gs, g = g0 :: gs → x ≠ 0 ∨ y ≠ 0 →
      add_origin (add_origin g x y) x y ≠ add_origin g x y) := by
  constructor
  · simp [add_origin, List.map_map, Function.comp_def]
  · intro g0 gs hg hxy heq
    subst hg
    simp only [add_origin, List.map_cons, List.map_map, Function.comp_def,
      List.cons.injEq, GlyphInstance.mk.injEq] at heq
    rcases hxy with hx | hy
    · exact hx (by linarith [heq.1.2.1])
    · exact hy (by linarith [heq.1.2.2])

theorem C8_add_origin_translation_witness :
    add_origin (add_origin [⟨1, 0, 0⟩] 3 4) 0 0 = add_origin [⟨1, 0, 0⟩] 3 4 ∧
    add_origin (add_origin [⟨1, 0, 0⟩] 3 4) 3 4 ≠ add_origin [⟨1, 0, 0⟩] 3 4 :=
  ⟨(C8_add_origin_translation [⟨1, 0, 0⟩] 3 4).1,
   (C8_add_origin_translation [⟨1, 0, 0⟩] 3 4).2 ⟨1, 0, 0⟩ [] rfl
     (Or.inl (by norm_num))⟩

/-! ## C5: pass-2 scrollbar reservation -/

/-- C5: pass 2 shrinks the height by the scrollbar thickness exactly when
pass 1 overflowed horizontally and shrinks the width exactly when pass 1
overflowed vertically (both may apply), and its overflow output is exactly
one re-run of pass 1 on the reduced rectangle. -/
theorem C5_pass2_reserves_and_reruns_once (words : List SemanticWordItem)
    (rect : RectSize) (fm : FontMetrics) (ov : LayoutOverflow)
    (sb : ScrollbarInfo) (p1 : TextOverflowPass1) :
    estimate_overflow_pass_2 words rect fm ov sb p1 =
      (let reduced : RectSize :=
        { width := rect.width -
            (if p1.vertical.isOverflowingB then (sb.width : ℚ) else 0),
          height := rect.height -
            (if p1.horizontal.isOverflowingB then (sb.width : ℚ) else 0) }
       (reduced,
        { horizontal := (estimate_overflow_pass_1 words reduced fm ov).horizontal,
          vertical := (estimate_overflow_pass_1 words reduced fm ov).vertical })) := by
  unfold estimate_overflow_pass_2
  cases hh : p1.horizontal.isOverflowingB <;>
    cases hv : p1.vertical.isOverflowingB <;>
      simp [hh, hv]

/-! ## C10: independence from the vertical-alignment argument -/

/-- C10: the entry point's output (positioned glyphs and pass-2 overflow)
does not depend on the vertical-alignment argument, because
`align_text_vert` changes nothing. -/
theorem C10_independent_of_vert_alignment (bounds : Rect)
    (ha : TextAlignmentHorz) (va1 va2 : TextAlignmentVert) (font : FontImpl)
    (font_size : ℚ) (line_height : Option ℚ) (text : List Char)
    (ov : LayoutOverflow) (sb : ScrollbarInfo) :
    get_glyphs bounds ha va1 font font_size line_height text ov sb =
      get_glyphs bounds ha va2 font font_size line_height text ov sb := rfl

/-! ## C3: pass 1's horizontal extent in the wrapping branch -/

/-- A one-glyph word of a given width, used in concrete token streams. -/
def mkWord (q : ℚ) : Word :=
  { text := ['x'], glyphs := [⟨0, 0, 0⟩], total_width := q }

/-- Token stream whose first line is wider than its last line. -/
def c3words : List SemanticWordItem :=
  [.word (mkWord 20), .ret, .word (mkWord 5)]

/-- Font metrics used in concrete overflow evaluations. -/
def c3fm : FontMetrics :=
  { space_width := 1, tab_width := 4, vertical_advance := 10, offset_top := 2 }

/-- C3 (the code contradicts the claim): with horizontal overflow not
permitted, on a stream whose first line reaches cursor 20 and whose last
line reaches cursor 5 in a rectangle of width 30, the wrapping simulation's
maximum per-line cursor is 20, yet the horizontal result is computed from
the final line's cursor 5 (`InBounds 25`), not from the maximum
(`InBounds 10`): `max_line_cursor` is never read in this branch. -/
theorem C3_horizontal_uses_final_cursor :
    estimate_overflow_pass_1 c3words ⟨30, 100⟩ c3fm ⟨false⟩ =
      { horizontal := .inBounds 25, vertical := .inBounds 88 } ∧
    (c3words.foldl (pass1SimStep 30 10 4) ⟨0, 0, 2⟩).max_line_cursor = 20 ∧
    (c3words.foldl (pass1SimStep 30 10 4) ⟨0, 0, 2⟩).cur_line_cursor = 5 ∧
    TextOverflow.inBounds (25 : ℚ) ≠ TextOverflow.inBounds (30 - 20) := by
  refine ⟨?_, ?_, ?_, by norm_num⟩ <;>
    simp [estimate_overflow_pass_1, pass1SimStep, boundCheck, c3words, mkWord,
      c3fm, LayoutOverflow.allowsHorizontalOverflow] <;> norm_num

/-! ## C4: empty text -/

lemma split_text_into_words_nil (font : FontImpl) (font_size : ℚ) :
    split_text_into_words [] font font_size = [] := rfl

lemma estimate_overflow_pass_1_nil (rect : RectSize) (fm : FontMetrics)
    (ov : LayoutOverflow) :
    estimate_overflow_pass_1 [] rect fm ov =
      if ov.allowsHorizontalOverflow then
        { horizontal := boundCheck 0 rect.width,
          vertical := boundCheck 0 rect.height }
      else
        { horizontal := boundCheck 0 rect.width,
          vertical := boundCheck fm.offset_top rect.height } := by
  unfold estimate_overflow_pass_1
  cases h : ov.allowsHorizontalOverflow <;> simp [h]

lemma words_to_left_aligned_glyphs_nil (font : FontImpl)
    (mw : Option ℚ) (fm : FontMetrics) :
    words_to_left_aligned_glyphs [] font mw fm = some ([], []) := by
  unfold words_to_left_aligned_glyphs placerRun
  simp [placerFlushLastLine]

/-- C4 (amended): for empty input text the entry point returns an empty
glyph sequence without erroring; the horizontal axis is `InBounds` with the
full width as slack, and the vertical axis is `InBounds` with the full
height when horizontal overflow is allowed, but with `height - top_offset`
otherwise (the wrapping simulation starts its vertical cursor at the
ascent), which also requires `top_offset ≤ height`. -/
theorem C4_empty_text_layout (bounds : Rect) (ha : TextAlignmentHorz)
    (va : TextAlignmentVert) (font : FontImpl) (font_size : ℚ)
    (line_height : Option ℚ) (ov : LayoutOverflow) (sb : ScrollbarInfo)
    (hw : 0 ≤ bounds.size.width) (hh : 0 ≤ bounds.size.height)
    (htop : (font.vMetrics (font_size * line_height.getD 1)).ascent ≤
      bounds.size.height) :
    get_glyphs bounds ha va font font_size line_height [] ov sb =
      some ([],
        { horizontal := .inBounds bounds.size.width,
          vertical :=
            if ov.allowsHorizontalOverflow then .inBounds bounds.size.height
            else .inBounds (bounds.size.height -
              (font.vMetrics (font_size * line_height.getD 1)).ascent) }) := by
  rcases ov with ⟨b⟩
  cases line_height <;> cases b <;>
    simp [get_glyphs, split_text_into_words_nil, estimate_overflow_pass_1_nil,
      estimate_overflow_pass_2, words_to_left_aligned_glyphs_nil,
      LayoutOverflow.allowsHorizontalOverflow, boundCheck,
      TextOverflow.isOverflowingB, apply_harfbuzz_adjustments,
      apply_knuth_plass_adjustments, align_text_horz, align_text_vert,
      add_origin, not_lt.mpr hw, not_lt.mpr hh,
      not_lt.mpr (by simpa using htop : _ ≤ bounds.size.height)]

theorem C4_empty_text_layout_witness :
    (0 : ℚ) ≤ 100 ∧ (0 : ℚ) ≤ 200 ∧
      (plainFont.vMetrics ((10 : ℚ) * (Option.none.getD 1))).ascent ≤ 200 ∧
    get_glyphs ⟨0, 0, ⟨100, 200⟩⟩ .left .top plainFont 10 none []
        ⟨false⟩ ⟨10, 0⟩ =
      some ([],
        { horizontal := .inBounds 100,
          vertical := .inBounds (200 - (10 : ℚ)) }) := by
  refine ⟨by norm_num, by norm_num, by norm_num [plainFont], ?_⟩
  have h := C4_empty_text_layout ⟨0, 0, ⟨100, 200⟩⟩ .left .top plainFont 10
    none ⟨false⟩ ⟨10, 0⟩ (by norm_num) (by norm_num)
    (by norm_num [plainFont])
  simpa [plainFont, LayoutOverflow.allowsHorizontalOverflow] using h

/-- C4 (counterexample to the claim as stated): for empty text in a
zero-area rectangle under a policy that does not allow horizontal overflow
(`plainFont` at size 10 has ascent 10), the entry point returns an empty
glyph sequence but the pass-2 overflow is `Overflowing 10` on both axes,
not `InBounds` with the full (zero) dimensions as slack. -/
theorem C4_counterexample :
    get_glyphs ⟨0, 0, ⟨0, 0⟩⟩ .left .top plainFont 10 none [] ⟨false⟩ ⟨10, 0⟩ =
      some ([],
        { horizontal := .isOverflowing 10, vertical := .isOverflowing 10 }) ∧
    (TextOverflowPass2.mk (.isOverflowing 10) (.isOverflowing 10) ≠
      { horizontal := .inBounds 0, vertical := .inBounds 0 }) := by
  constructor
  · simp [get_glyphs, split_text_into_words_nil, estimate_overflow_pass_1_nil,
      estimate_overflow_pass_2, words_to_left_aligned_glyphs_nil,
      align_text_horz, align_text_vert, add_origin, boundCheck,
      plainFont, LayoutOverflow.allowsHorizontalOverflow,
      TextOverflow.isOverflowingB, apply_harfbuzz_adjustments,
      apply_knuth_plass_adjustments]
  · simp

/-! ## C7: the line-break table's last entry -/

lemma placerFlushLastLine_glyphs (mw : Option ℚ) (s : PlacerState) :
    (placerFlushLastLine mw s).left_aligned_glyphs = s.left_aligned_glyphs := by
  unfold placerFlushLastLine
  split <;> rfl

/-- C7: whenever the placer succeeds and returns a non-empty glyph
sequence, the line-break table is non-empty and its last entry's glyph
index is the index of the final glyph. -/
theorem C7_last_line_break_indexes_final_glyph (words : List SemanticWordItem)
    (font : FontImpl) (mw : Option ℚ) (fm : FontMetrics)
    (glyphs : List GlyphInstance) (line_breaks : List (Nat × ℚ))
    (hres : words_to_left_aligned_glyphs words font mw fm =
      some (glyphs, line_breaks))
    (hne : glyphs ≠ []) :
    line_breaks ≠ [] ∧
    ∃ e, line_breaks.getLast? = some e ∧ e.1 = glyphs.length - 1 := by
  unfold words_to_left_aligned_glyphs at hres
  rcases Option.bind_eq_some.mp hres with ⟨s, hrun, hbody⟩
  simp only [Option.some.injEq, Prod.mk.injEq] at hbody
  obtain ⟨hg, hl⟩ := hbody
  rw [placerFlushLastLine_glyphs] at hg
  have hemp : s.left_aligned_glyphs.isEmpty = false := by
    rw [hg]
    cases h : glyphs.isEmpty with
    | false => rfl
    | true => exact absurd (List.isEmpty_iff.mp h) hne
  rw [placerFlushLastLine, if_neg (by simp [hemp])] at hl
  subst hg
  subst hl
  refine ⟨by simp, ?_⟩
  refine ⟨(s.left_aligned_glyphs.length - 1,
    resolveSlack
      (if s.word_caret > s.max_word_caret then s.word_caret else s.max_word_caret)
      (spaceUntilHorzReturn mw s.word_caret)), ?_, rfl⟩
  simp

theorem C7_last_line_break_indexes_final_glyph_witness :
    words_to_left_aligned_glyphs [.word (mkWord 5)] plainFont none c3fm =
      some ([⟨0, 0, 2⟩], [(0, 0)]) ∧
    ([⟨0, 0, 2⟩] : List GlyphInstance) ≠ [] ∧
    (([(0, 0)] : List (Nat × ℚ)) ≠ [] ∧
      ∃ e, ([(0, 0)] : List (Nat × ℚ)).getLast? = some e ∧
        e.1 = ([⟨0, 0, 2⟩] : List GlyphInstance).length - 1) := by
  have hcomp : words_to_left_aligned_glyphs [.word (mkWord 5)] plainFont none c3fm =
      some ([⟨0, 0, 2⟩], [(0, 0)]) := by
    simp [words_to_left_aligned_glyphs, placerRun, placerStep, recordLineBreak,
      spaceUntilHorzReturn, placerFlushLastLine, resolveSlack, mkWord,
      scaledVerticalAdvance, plainFont, c3fm]
    norm_num
  exact ⟨hcomp, by simp,
    C7_last_line_break_indexes_final_glyph [.word (mkWord 5)] plainFont none
      c3fm [⟨0, 0, 2⟩] [(0, 0)] hcomp (by simp)⟩

/-! ## C9: the placer's `len() - 1` underflow and its precondition -/

/-- The precondition "every line break taken during placement is preceded
by at least one already-placed glyph", computed by replaying the placer's
break decisions while tracking only the glyph count and the caret. -/
def placerBreaksHaveGlyphs (mw : Option ℚ) (space_width tab_width : ℚ) :
    Nat → ℚ → List SemanticWordItem → Bool
  | _, _, [] => true
  | n, caret, .word w :: rest =>
    let text_overflows_rect : Bool :=
      match mw with
      | some m => decide (caret + w.total_width > m)
      | none => false
    if text_overflows_rect then
      (!(n == 0)) && placerBreaksHaveGlyphs mw space_width tab_width
        (n + w.glyphs.length) (w.total_width + space_width) rest
    else
      placerBreaksHaveGlyphs mw space_width tab_width
        (n + w.glyphs.length) (caret + w.total_width + space_width) rest
  | n, caret, .tab :: rest =>
    placerBreaksHaveGlyphs mw space_width tab_width n (caret + tab_width) rest
  | n, _, .ret :: rest =>
    (!(n == 0)) && placerBreaksHaveGlyphs mw space_width tab_width n 0 rest

lemma placerRun_isSome_eq_breaksHaveGlyphs (mw : Option ℚ)
    (space_width tab_width v_advance_scaled offset_top : ℚ)
    (words : List SemanticWordItem) (s : PlacerState) :
    (placerRun mw space_width tab_width v_advance_scaled offset_top
      s words).isSome =
    placerBreaksHaveGlyphs mw space_width tab_width
      s.left_aligned_glyphs.length s.word_caret words := by
  induction words generalizing s with
  | nil => rfl
  | cons item rest ih =>
    cases item with
    | word w =>
      simp only [placerRun, placerStep, placerBreaksHaveGlyphs]
      cases hov : (match mw with
        | some m => decide (s.word_caret + w.total_width > m)
        | none => false) with
      | false =>
        simp only [hov, if_false, Bool.false_eq_true, ite_false,
          Option.some_bind, Option.bind_some]
        rw [ih]
        simp
      | true =>
        simp only [hov, if_true, ite_true]
        rw [recordLineBreak]
        cases hemp : s.left_aligned_glyphs.isEmpty with
        | true =>
          have : s.left_aligned_glyphs.length = 0 := by
            simpa [List.isEmpty_iff, List.length_eq_zero] using hemp
          simp [this]
        | false =>
          have hlen : ¬ s.left_aligned_glyphs.length = 0 := by
            simp only [List.length_eq_zero]
            intro hnil
            rw [hnil] at hemp
            simp at hemp
          simp only [hemp, Bool.false_eq_true, ite_false, Option.some_bind]
          rw [ih]
          simp [hlen]
    | tab =>
      simp only [placerRun, placerStep, placerBreaksHaveGlyphs,
        Option.some_bind]
      rw [ih]
    | ret =>
      simp only [placerRun, placerStep, placerBreaksHaveGlyphs,
        recordLineBreak]
      cases hemp : s.left_aligned_glyphs.isEmpty with
      | true =>
        have : s.left_aligned_glyphs.length = 0 := by
          simpa [List.isEmpty_iff, List.length_eq_zero] using hemp
        simp [this]
      | false =>
        have hlen : ¬ s.left_aligned_glyphs.length = 0 := by
          simp only [List.length_eq_zero]
          intro hnil
          rw [hnil] at hemp
          simp at hemp
        simp only [hemp, Bool.false_eq_true, ite_false, Option.some_bind]
        rw [ih]
        simp [hlen]

lemma words_to_left_aligned_glyphs_isSome (words : List SemanticWordItem)
    (font : FontImpl) (mw : Option ℚ) (fm : FontMetrics) :
    (words_to_left_aligned_glyphs words font mw fm).isSome =
    (placerRun mw fm.space_width fm.tab_width
      (scaledVerticalAdvance font fm) fm.offset_top
      ⟨[], [], 0, 0, 0⟩ words).isSome := by
  unfold words_to_left_aligned_glyphs
  cases placerRun mw fm.space_width fm.tab_width
    (scaledVerticalAdvance font fm) fm.offset_top ⟨[], [], 0, 0, 0⟩ words <;>
    rfl

/-- C9: the placer is total exactly when every break it takes (an explicit
line-break token, or a word overflowing the maximum width) is preceded by
at least one placed glyph — otherwise it evaluates `len() - 1` on an empty
glyph vector (modelled `none`).  In particular a leading line-break token,
or a first word wider than the maximum width, makes it fail. -/
theorem C9_placer_total_iff_breaks_have_glyphs (font : FontImpl)
    (fm : FontMetrics) :
    (∀ (mw : Option ℚ) (words : List SemanticWordItem),
      (words_to_left_aligned_glyphs words font mw fm).isSome =
        placerBreaksHaveGlyphs mw fm.space_width fm.tab_width 0 0 words) ∧
    (∀ (mw : Option ℚ) (words : List SemanticWordItem),
      words_to_left_aligned_glyphs (.ret :: words) font mw fm = none) ∧
    (∀ (m : ℚ) (w : Word) (words : List SemanticWordItem),
      m < w.total_width →
      words_to_left_aligned_glyphs (.word w :: words) font (some m) fm = none) := by
  have hbase : ∀ (mw : Option ℚ) (words : List SemanticWordItem),
      (words_to_left_aligned_glyphs words font mw fm).isSome =
        placerBreaksHaveGlyphs mw fm.space_width fm.tab_width 0 0 words := by
    intro mw words
    rw [words_to_left_aligned_glyphs_isSome,
      placerRun_isSome_eq_breaksHaveGlyphs]
    rfl
  refine ⟨hbase, ?_, ?_⟩
  · intro mw words
    have h := hbase mw (.ret :: words)
    rw [placerBreaksHaveGlyphs] at h
    refine Option.not_isSome_iff_eq_none.mp ?_
    simp [h]
  · intro m w words hm
    have h := hbase (some m) (.word w :: words)
    rw [placerBreaksHaveGlyphs] at h
    have hov : decide ((0 : ℚ) + w.total_width > m) = true := by
      simp [hm]
    simp only [hov, if_true, ite_true] at h
    simpa using h

theorem C9_placer_total_iff_breaks_have_glyphs_witness :
    ((5 : ℚ) < 10) ∧
    words_to_left_aligned_glyphs [.word (mkWord 10)] plainFont (some 5) c3fm =
      none :=
  ⟨by norm_num,
   (C9_placer_total_iff_breaks_have_glyphs plainFont c3fm).2.2 5 (mkWord 10) []
     (by norm_num [mkWord])⟩

/-! ## C2: word placement and caret advance in the placer -/

lemma placerRun_append (mw : Option ℚ) (sp tb va ot : ℚ)
    (ws1 ws2 : List SemanticWordItem) (s : PlacerState) :
    placerRun mw sp tb va ot s (ws1 ++ ws2) =
      (placerRun mw sp tb va ot s ws1).bind fun s' =>
        placerRun mw sp tb va ot s' ws2 := by
  induction ws1 generalizing s with
  | nil => simp [placerRun]
  | cons item rest ih =>
    rw [List.cons_append]
    simp only [placerRun]
    cases placerStep mw sp tb va ot s item with
    | none => rfl
    | some s' => simp [ih]

/-- C2 (amended): for any reachable placer state `s`, processing one more
`Word` token places every glyph of the word at
`(caret + relative_x, line_number * v_advance_scaled + top_offset)` — where
`v_advance_scaled` is `ascent - descent + line_gap` of the font's vertical
metrics at scale `vertical_advance`, not `vertical_advance` itself — and
then advances the caret by exactly `total_width + space_width`; when the
word triggers a width break (and a glyph was already placed), the same
placement happens with caret 0 on line `line_number + 1`. -/
theorem C2_word_placement_and_caret_advance (font : FontImpl)
    (fm : FontMetrics) (mw : Option ℚ) (ws : List SemanticWordItem)
    (w : Word) (s : PlacerState)
    (hrun : placerRun mw fm.space_width fm.tab_width
      (scaledVerticalAdvance font fm) fm.offset_top ⟨[], [], 0, 0, 0⟩ ws =
      some s) :
    ((∀ m, mw = some m → s.word_caret + w.total_width ≤ m) →
      placerRun mw fm.space_width fm.tab_width
        (scaledVerticalAdvance font fm) fm.offset_top ⟨[], [], 0, 0, 0⟩
        (ws ++ [.word w]) =
      some { s with
        left_aligned_glyphs := s.left_aligned_glyphs ++ w.glyphs.map (fun g =>
          { g with
            x := g.x + s.word_caret,
            y := g.y + ((s.current_line_num : ℚ) *
              scaledVerticalAdvance font fm + fm.offset_top) }),
        word_caret := s.word_caret + w.total_width + fm.space_width }) ∧
    (∀ m, mw = some m → m < s.word_caret + w.total_width →
      s.left_aligned_glyphs ≠ [] →
      placerRun mw fm.space_width fm.tab_width
        (scaledVerticalAdvance font fm) fm.offset_top ⟨[], [], 0, 0, 0⟩
        (ws ++ [.word w]) =
      some { s with
        left_aligned_glyphs := s.left_aligned_glyphs ++ w.glyphs.map (fun g =>
          { g with
            x := g.x,
            y := g.y + (((s.current_line_num : ℚ) + 1) *
              scaledVerticalAdvance font fm + fm.offset_top) }),
        line_break_offsets := s.line_break_offsets ++
          [(s.left_aligned_glyphs.length - 1,
            spaceUntilHorzReturn mw s.word_caret)],
        word_caret := w.total_width + fm.space_width,
        current_line_num := s.current_line_num + 1,
        max_word_caret :=
          if s.word_caret > s.max_word_caret then s.word_caret
          else s.max_word_caret }) := by
  constructor
  · intro hno
    rw [placerRun_append, hrun, Option.some_bind]
    simp only [placerRun, placerStep]
    cases mw with
    | none => simp [placerRun]
    | some m =>
      have hov : decide (s.word_caret + w.total_width > m) = false := by
        simp [not_lt.mpr (hno m rfl)]
      simp [hov, placerRun]
  · intro m hm hlt hne
    subst hm
    rw [placerRun_append, hrun, Option.some_bind]
    simp only [placerRun, placerStep]
    have hov : decide (s.word_caret + w.total_width > m) = true := by
      simp [hlt]
    simp only [hov, ite_true, recordLineBreak]
    rw [if_neg (by simp [List.isEmpty_iff, hne])]
    simp only [Option.some_bind, placerRun, Option.some.injEq]
    push_cast
    simp

theorem C2_word_placement_and_caret_advance_witness :
    placerRun none c3fm.space_width c3fm.tab_width
      (scaledVerticalAdvance plainFont c3fm) c3fm.offset_top
      ⟨[], [], 0, 0, 0⟩ [.word (mkWord 5)] =
    some { left_aligned_glyphs := [⟨0, 0, 2⟩], line_break_offsets := [],
           word_caret := 6, current_line_num := 0, max_word_caret := 0 } := by
  have h := (C2_word_placement_and_caret_advance plainFont c3fm none []
    (mkWord 5) ⟨[], [], 0, 0, 0⟩ rfl).1 (by intro m hm; cases hm)
  rw [List.nil_append] at h
  rw [h]
  simp [mkWord, c3fm, scaledVerticalAdvance, plainFont]
  norm_num

/-- Token stream with a word on line 0 and, after an explicit return, a
word on line 1. -/
def c2words : List SemanticWordItem :=
  [.word (mkWord 3), .ret, .word (mkWord 3)]

/-- C2 (counterexample to the claim as stated): under `bumpFont` the scaled
vertical advance (`ascent - descent + line_gap` at scale
`vertical_advance = 10`) is 11, so the glyph on line 1 is placed at
`y = 13`, not at `line_number * vertical_advance + top_offset = 12`. -/
theorem C2_counterexample :
    words_to_left_aligned_glyphs c2words bumpFont none c3fm =
      some ([⟨0, 0, 2⟩, ⟨0, 0, 13⟩], [(0, 0), (1, 0)]) ∧
    (13 : ℚ) ≠ 1 * c3fm.vertical_advance + c3fm.offset_top := by
  constructor
  · simp [words_to_left_aligned_glyphs, placerRun, placerStep, recordLineBreak,
      spaceUntilHorzReturn, placerFlushLastLine, resolveSlack, mkWord, c2words,
      scaledVerticalAdvance, bumpFont, c3fm]
    norm_num
  · norm_num [c3fm]

/-! ## C6: horizontal alignment redistributes each line's slack -/

/-- Following the spec's wording: the line of a glyph is the first
line-break entry whose recorded glyph index is at or past the glyph. -/
def lineOfGlyph (line_breaks : List (Nat × ℚ)) (glyph_idx : Nat) : Nat :=
  line_breaks.findIdx fun e => decide (glyph_idx ≤ e.1)

/-- Following the spec's wording: shift every glyph's x-coordinate by its
line's recorded slack times the factor, leaving y untouched. -/
def shiftedGlyphs (line_breaks : List (Nat × ℚ)) (factor : ℚ) :
    List GlyphInstance → Nat → List GlyphInstance
  | [], _ => []
  | g :: gs, i =>
    { g with x := g.x +
        (line_breaks.getD (lineOfGlyph line_breaks i) (0, 0)).2 * factor } ::
      shiftedGlyphs line_breaks factor gs (i + 1)

lemma getElem?_eq_some_getD (l : List (Nat × ℚ)) (n : Nat)
    (h : n < l.length) : l[n]? = some (l.getD n (0, 0)) := by
  rw [List.getD_eq_getElem?_getD, List.getElem?_eq_getElem h]
  rfl

lemma getLast?_eq_some_getD (l : List (Nat × ℚ)) (h : l ≠ []) :
    l.getLast? = some (l.getD (l.length - 1) (0, 0)) := by
  rw [List.getLast?_eq_getElem?, List.getD_eq_getElem?_getD,
    List.getElem?_eq_getElem (Nat.sub_lt (List.length_pos.mpr h) one_pos)]
  rfl

lemma sorted_fst_lt (lb : List (Nat × ℚ))
    (hs : lb.Pairwise fun a b => a.1 < b.1) (i j : Nat)
    (hij : i < j) (hj : j < lb.length) :
    (lb.getD i (0, 0)).1 < (lb.getD j (0, 0)).1 := by
  have hi : i < lb.length := lt_trans hij hj
  have h := List.pairwise_iff_getElem.mp hs i j hi hj hij
  rw [List.getD_eq_getElem?_getD, List.getD_eq_getElem?_getD,
    List.getElem?_eq_getElem hi, List.getElem?_eq_getElem hj]
  exact h

lemma lineOfGlyph_eq (lb : List (Nat × ℚ)) (idx j : Nat)
    (hj : j < lb.length)
    (hlow : ∀ k, k < j → (lb.getD k (0, 0)).1 < idx)
    (hp : idx ≤ (lb.getD j (0, 0)).1) :
    lineOfGlyph lb idx = j := by
  unfold lineOfGlyph
  induction lb generalizing j with
  | nil => simp at hj
  | cons e t ih =>
    rw [List.findIdx_cons]
    cases j with
    | zero =>
      have hpe : decide (idx ≤ e.1) = true := by
        simpa [List.getD_cons_zero] using hp
      simp [hpe]
    | succ j' =>
      have he : e.1 < idx := by
        simpa [List.getD_cons_zero] using hlow 0 (Nat.succ_pos j')
      have hpe : decide (idx ≤ e.1) = false := by
        simp only [decide_eq_false_iff_not, not_le]
        exact he
      simp only [hpe, cond_false]
      have := ih j' (by simpa using hj)
        (fun k hk => by simpa [List.getD_cons_succ] using hlow (k + 1) (by omega))
        (by simpa [List.getD_cons_succ] using hp)
      omega

lemma alignLoop_eq_shiftedGlyphs (lb : List (Nat × ℚ)) (factor : ℚ)
    (hs : lb.Pairwise fun a b => a.1 < b.1) :
    ∀ (gs : List GlyphInstance) (idx line : Nat),
    line < lb.length →
    (∀ k, k < line → (lb.getD k (0, 0)).1 < idx) →
    idx ≤ (lb.getD line (0, 0)).1 + 1 →
    idx + gs.length ≤ (lb.getD (lb.length - 1) (0, 0)).1 + 1 →
    alignLoop lb factor gs idx line = some (shiftedGlyphs lb factor gs idx) := by
  intro gs
  induction gs with
  | nil => intro idx line _ _ _ _; rw [alignLoop, shiftedGlyphs]
  | cons g rest ih =>
    intro idx line hline hlow hhigh hcov
    rw [alignLoop, shiftedGlyphs]
    rw [getElem?_eq_some_getD lb line hline]
    by_cases hcase : (lb.getD line (0, 0)).1 < idx
    · -- the glyph index has passed this line's last glyph: advance the line
      have hidx : idx = (lb.getD line (0, 0)).1 + 1 := by omega
      have hline1 : line + 1 < lb.length := by
        rcases Nat.lt_or_ge (line + 1) lb.length with h | h
        · exact h
        · exfalso
          have hlineeq : line = lb.length - 1 := by omega
          rw [← hlineeq] at hcov
          simp only [List.length_cons] at hcov
          omega
      have hmono : (lb.getD line (0, 0)).1 < (lb.getD (line + 1) (0, 0)).1 :=
        sorted_fst_lt lb hs line (line + 1) (by omega) hline1
      have hlineof : lineOfGlyph lb idx = line + 1 := by
        refine lineOfGlyph_eq lb idx (line + 1) hline1 ?_ (by omega)
        intro k hk
        rcases Nat.lt_or_ge k line with hk' | hk'
        · exact hlow k hk'
        · have : k = line := by omega
          rw [this]
          exact hcase
      simp only [if_pos hcase]
      rw [getElem?_eq_some_getD lb (line + 1) hline1]
      have hrest := ih (idx + 1) (line + 1) hline1
        (by
          intro k hk
          rcases Nat.lt_or_ge k line with hk' | hk'
          · exact lt_trans (hlow k hk') (Nat.lt_succ_self idx)
          · have : k = line := by omega
            rw [this]
            omega)
        (by omega)
        (by simp only [List.length_cons] at hcov; omega)
      rw [hrest, hlineof]
      rfl
    · -- the glyph is still on the current line
      have hlineof : lineOfGlyph lb idx = line :=
        lineOfGlyph_eq lb idx line hline hlow (by omega)
      simp only [if_neg hcase]
      rw [getElem?_eq_some_getD lb line hline]
      have hrest := ih (idx + 1) line hline
        (fun k hk => lt_trans (hlow k hk) (Nat.lt_succ_self idx))
        (by omega)
        (by simp only [List.length_cons] at hcov; omega)
      rw [hrest, hlineof]
      rfl

/-- C6 (amended): with a line-break table whose recorded glyph indices are
strictly increasing — one non-empty line per entry — and whose last entry
indexes the final glyph, `align_text_horz` is the identity for `Left`; for
`Center` it adds exactly half the glyph's line's recorded trailing slack to
its x-coordinate, and for `Right` the full slack, leaving all y-coordinates
unchanged (the line of a glyph being the first table entry whose index is
at or past the glyph).  Tables with duplicate indices, produced by
consecutive line-break tokens, make the aligner use a different entry's
slack (see the counterexample). -/
theorem C6_horizontal_alignment (glyphs : List GlyphInstance)
    (lb : List (Nat × ℚ)) (ov : TextOverflowPass2)
    (hs : lb.Pairwise fun a b => a.1 < b.1)
    (hne : glyphs ≠ []) (hlbne : lb ≠ [])
    (hlast : (lb.getD (lb.length - 1) (0, 0)).1 = glyphs.length - 1) :
    align_text_horz .left glyphs lb ov = some glyphs ∧
    align_text_horz .center glyphs lb ov =
      some (shiftedGlyphs lb (1 / 2) glyphs 0) ∧
    align_text_horz .right glyphs lb ov =
      some (shiftedGlyphs lb 1 glyphs 0) := by
  have hlen : glyphs.length ≠ 0 := by
    simpa [List.length_eq_zero] using hne
  have hloop : ∀ factor : ℚ,
      alignLoop lb factor glyphs 0 0 = some (shiftedGlyphs lb factor glyphs 0) := by
    intro factor
    refine alignLoop_eq_shiftedGlyphs lb factor hs glyphs 0 0
      (List.length_pos.mpr hlbne) (by omega) (by omega) ?_
    rw [hlast]
    omega
  refine ⟨?_, ?_, ?_⟩ <;>
    (unfold align_text_horz
     rw [getLast?_eq_some_getD lb hlbne]
     simp only [hlast, hlen, ne_eq, eq_self_iff_true, not_true_eq_false,
       not_false_eq_true, if_false, ite_false, if_true, ite_true])
  all_goals exact hloop _

/-- Concrete glyphs: two on line 0, one on line 1. -/
def c6glyphs : List GlyphInstance := [⟨1, 0, 0⟩, ⟨2, 10, 0⟩, ⟨3, 0, 10⟩]

/-- Concrete line-break table: line 0 ends at glyph 1 with slack 4, line 1
ends at glyph 2 with slack 6. -/
def c6lb : List (Nat × ℚ) := [(1, 4), (2, 6)]

/-- A concrete pass-2 overflow value (unused by the aligner). -/
def c6ov : TextOverflowPass2 := ⟨.inBounds 0, .inBounds 0⟩

theorem C6_horizontal_alignment_witness :
    (c6lb.Pairwise fun a b => a.1 < b.1) ∧
    align_text_horz .left c6glyphs c6lb c6ov = some c6glyphs ∧
    align_text_horz .center c6glyphs c6lb c6ov =
      some [⟨1, 2, 0⟩, ⟨2, 12, 0⟩, ⟨3, 3, 10⟩] ∧
    align_text_horz .right c6glyphs c6lb c6ov =
      some [⟨1, 4, 0⟩, ⟨2, 14, 0⟩, ⟨3, 6, 10⟩] := by
  have hs : c6lb.Pairwise fun a b => a.1 < b.1 := by
    simp [c6lb, List.pairwise_cons]
  have h := C6_horizontal_alignment c6glyphs c6lb c6ov hs
    (by simp [c6glyphs]) (by simp [c6lb])
    (by simp [c6glyphs, c6lb, List.getD])
  refine ⟨hs, h.1, ?_, ?_⟩
  · rw [h.2.1]
    simp [shiftedGlyphs, lineOfGlyph, List.findIdx_cons, c6glyphs, c6lb,
      List.getD]
    norm_num
  · rw [h.2.2]
    simp [shiftedGlyphs, lineOfGlyph, List.findIdx_cons, c6glyphs, c6lb,
      List.getD]
    norm_num

/-- A word, two consecutive explicit line breaks (an empty line), then a
word — the token stream of a text like "a\n\nb". -/
def c6badWords : List SemanticWordItem :=
  [.word (mkWord 3), .ret, .ret, .word (mkWord 3)]

/-- The glyphs the placer emits for `c6badWords` with maximum width 10
(one glyph on line 0, one on line 2). -/
def c6badGlyphs : List GlyphInstance := [⟨0, 0, 2⟩, ⟨0, 0, 22⟩]

/-- The line-break table the placer emits for `c6badWords` with maximum
width 10: the empty line duplicates glyph index 0, so the indices are not
strictly increasing. -/
def c6badTable : List (Nat × ℚ) := [(0, 6), (0, 10), (1, 6)]

/-- C6 (counterexample to the claim as stated): consecutive line-break
tokens yield a reachable line-break table with duplicate glyph indices;
on it the center aligner moves glyph 1 (which sits on the line of table
entry `(1, 6)`, so the claim demands a shift of half that slack, 3) by
half the empty line's slack instead: its x goes from 0 to 5, because the
aligner's scan advances past at most one table entry per glyph. -/
theorem C6_counterexample :
    words_to_left_aligned_glyphs c6badWords plainFont (some 10) c3fm =
      some (c6badGlyphs, c6badTable) ∧
    align_text_horz .center c6badGlyphs c6badTable c6ov =
      some [⟨0, 3, 2⟩, ⟨0, 5, 22⟩] ∧
    lineOfGlyph c6badTable 1 = 2 ∧
    (c6badTable.getD (lineOfGlyph c6badTable 1) (0, 0)).2 * (1 / 2) = 3 ∧
    (5 : ℚ) ≠ 0 + 3 := by
  refine ⟨?_, ?_, ?_, ?_, by norm_num⟩
  · norm_num [words_to_left_aligned_glyphs, placerRun, placerStep,
      recordLineBreak, spaceUntilHorzReturn, placerFlushLastLine,
      resolveSlack, mkWord, scaledVerticalAdvance, plainFont, c3fm,
      c6badWords, c6badGlyphs, c6badTable]
    simp [resolveSlack]
  · norm_num [align_text_horz, alignLoop, c6badGlyphs, c6badTable, c6ov]
  · norm_num [lineOfGlyph, List.findIdx_cons, c6badTable]
  · norm_num [lineOfGlyph, List.findIdx_cons, c6badTable, List.getD]

end AzulText
